import Mathlib

/-!
Verification of the path-based motion model of the train simulation
(`src/main2.py`): the `Train` class (construction, `step`, `get_pos_at`,
`polyline_between`, the first line of `draw`) and the module-level
`detect_collisions` pass.

The embedding is generic over a linear ordered field `α` with a floor
structure, standing for the real numbers that Python floats approximate.
The one operation that leaves the field is `math.hypot` (a square root),
used by the module-level helper `dist`; the segment-length function is
therefore kept as an explicit parameter `dst` of the constructor and of
`detect_collisions`, and every theorem that needs a property of the
Euclidean distance (nonnegativity, symmetry) assumes exactly that property
of `dst`.  The genuine Euclidean distance over `ℝ` is given as `hdist`
below, and it has both properties.  Concrete witnesses instantiate `α := ℚ`
with a nonnegative symmetric stand-in distance so that everything computes.
-/

namespace TrainSim

variable {α : Type} [LinearOrderedField α] [FloorRing α]

/-- Embeds `lerp(a, b, t)` from `src/main2.py`: componentwise linear
interpolation between two points. -/
def lerp (a b : α × α) (t : α) : α × α :=
  (a.1 + (b.1 - a.1) * t, a.2 + (b.2 - a.2) * t)

/-- Embeds the module-level `dist(a, b) = math.hypot(a0 - b0, a1 - b1)`:
the Euclidean distance between two points, over the reals. -/
noncomputable def hdist (a b : ℝ × ℝ) : ℝ :=
  Real.sqrt ((a.1 - b.1) ^ 2 + (a.2 - b.2) ^ 2)

/-- Embeds Python's float `%` for a nonzero divisor: floor-style modulo,
`x - y * floor(x / y)`.  (Python raises on `% 0.0`; `pymod` below models
that case.) -/
def fmod (x y : α) : α := x - y * (⌊x / y⌋ : α)

/-- Embeds Python's float `%` together with its error behaviour: `x % 0.0`
raises `ZeroDivisionError`, modelled as `none`. -/
def pymod (x y : α) : Option α := if y = 0 then none else some (fmod x y)

/-- The two `ValueError`s that `Train.__init__` can raise.  Each carries the
train identifier from the message text; `unknownNode` also carries the
offending node name. -/
inductive BuildError where
  | missingRoute (tid : String)
  | unknownNode (tid : String) (node : String)
  deriving DecidableEq, Repr

/-- The graph's node table, `nodes`: a finite map from node name to world
position (only the `pos` field matters to the Train code; the `type` field
is style-only and dropped). -/
def Nodes (α : Type) := List (String × (α × α))

/-- Node lookup, `nodes[u]["pos"]`. -/
def Nodes.pos (ns : Nodes α) (n : String) : Option (α × α) :=
  List.lookup n ns

/-- One entry of `trains.json` after the per-field default resolution that
`Train.__init__` performs with `cfg.get` (`max_speed=2.0`, `length=40.0`,
`start_dist=0.0`; `id` resolved from `id`/`name`/`"T?"`).  `route` and
`path` stay optional because `__init__` branches on their presence and
truthiness. -/
structure Cfg (α : Type) where
  id : String
  route : Option (List String)
  path : Option (List String)
  max_speed : α
  length : α
  start_dist : α

/-- Embeds `cfg.get("route") or cfg.get("path")` followed by the `not
self.route` check: Python's `or` falls through on a missing or empty
`route`, and the constructor then errors exactly when the result is missing
or empty, i.e. when `effRoute` is `[]`. -/
def Cfg.effRoute (c : Cfg α) : List String :=
  match c.route with
  | some (x :: xs) => x :: xs
  | _ => c.path.getD []

/-- Embeds the `for n in self.route: if n not in nodes: raise` loop:
returns the error for the first route node absent from the node table,
`none` when all nodes exist. -/
def checkNodes (ns : Nodes α) (tid : String) : List String → Option BuildError
  | [] => none
  | n :: rest =>
      if (ns.pos n).isSome then checkNodes ns tid rest
      else some (.unknownNode tid n)

/-- Embeds the segment-building loop `for i in range(len(route) - 1)`:
endpoint pairs of consecutive route nodes.  The `.getD (0, 0)` never fires
on routes that passed `checkNodes`. -/
def mkSegs (ns : Nodes α) : List String → List ((α × α) × (α × α))
  | u :: v :: rest =>
      ((ns.pos u).getD (0, 0), (ns.pos v).getD (0, 0)) :: mkSegs ns (v :: rest)
  | _ => []

/-- The fields of the `Train` class that the motion model reads or writes
(visual attributes `color` and `thickness` are dropped). -/
structure Train (α : Type) where
  id : String
  route : List String
  max_speed : α
  length : α
  edge_points : List ((α × α) × (α × α))
  edge_lengths : List α
  total_len : α
  abs_dist : α
  deriving Repr

instance : Inhabited (Train α) :=
  ⟨{ id := "", route := [], max_speed := 0, length := 0, edge_points := [],
     edge_lengths := [], total_len := 0, abs_dist := 0 }⟩

/-- Embeds `Train.__init__(cfg)`: resolve the route, validate it against
the node table (raising = `Except.error`), then precompute `edge_points`,
`edge_lengths` (via the distance function `dst`, i.e. `dist`/`math.hypot`),
`total_len` and the initial `abs_dist`. -/
def build (dst : (α × α) → (α × α) → α) (ns : Nodes α) (c : Cfg α) :
    Except BuildError (Train α) :=
  match c.effRoute with
  | [] => .error (.missingRoute c.id)
  | x :: xs =>
      match checkNodes ns c.id (x :: xs) with
      | some e => .error e
      | none =>
          let eps := mkSegs ns (x :: xs)
          let els := eps.map fun s => dst s.1 s.2
          .ok { id := c.id, route := x :: xs, max_speed := c.max_speed,
                length := c.length, edge_points := eps, edge_lengths := els,
                total_len := els.sum, abs_dist := c.start_dist }

/-- Embeds `Train.step(dt)`: advance `abs_dist` by `max_speed * dt`, then
wrap with `%` only when `total_len > 0`. -/
def Train.step (t : Train α) (dt : α) : Train α :=
  let nd := t.abs_dist + t.max_speed * dt
  if 0 < t.total_len then { t with abs_dist := fmod nd t.total_len }
  else { t with abs_dist := nd }

/-- Embeds the `for (a,b), seglen in zip(...)` walk of `get_pos_at`
(recursion on both lists mirrors `zip`'s truncation), with the
post-loop `return self.edge_points[-1][1]` passed in as `fb`. -/
def segWalk (fb : α × α) :
    List ((α × α) × (α × α)) → List α → α → α × α
  | (a, b) :: ps, seglen :: ls, rem =>
      if rem ≤ seglen ∨ seglen = 0 then
        lerp a b (if 0 < seglen then rem / seglen else 0)
      else segWalk fb ps ls (rem - seglen)
  | _, _, _ => fb

/-- Embeds `Train.get_pos_at(gdist)`: on a zero-length path return
`edge_points[0][0]` if any segment exists, else the literal `(0, 0)`;
otherwise wrap `gdist` by `%` and walk the segments. -/
def Train.get_pos_at (t : Train α) (gdist : α) : α × α :=
  if t.total_len = 0 then
    match t.edge_points with
    | [] => (0, 0)
    | s :: _ => s.1
  else
    segWalk (t.edge_points.getLastD ((0, 0), (0, 0))).2
      t.edge_points t.edge_lengths (fmod gdist t.total_len)

/-- Embeds `Train.polyline_between(back_gdist, front_gdist, zoom, step_px)`
(source default `step_px = 4`, the value `draw` uses): zoom-adaptive
sampling of `get_pos_at` at `samples + 1` evenly spaced arc-length offsets. -/
def Train.polyline_between (t : Train α)
    (back_gdist front_gdist zoom step_px : α) : List (α × α) :=
  let step_dist := step_px / zoom
  let span0 := front_gdist - back_gdist
  let span := if span0 < 0 then span0 + t.total_len else span0
  let samples : ℕ := max 2 ⌈span / step_dist⌉.toNat
  (List.range (samples + 1)).map fun (i : ℕ) =>
    t.get_pos_at (back_gdist + ((i : α) / (samples : α)) * span)

/-- Embeds the first statement of `Train.draw`:
`front = self.abs_dist % self.total_len`, with no guard on
`total_len == 0` — via `pymod`, whose `none` models the
`ZeroDivisionError` Python raises there. -/
def Train.draw_front (t : Train α) : Option α :=
  pymod t.abs_dist t.total_len

/-- The reference position the collision pass uses for a train:
`get_pos_at(abs_dist)`. -/
def Train.frontPos (t : Train α) : α × α :=
  t.get_pos_at t.abs_dist

/-- Embeds the double loop of `detect_collisions(trains, ...)`: for every
index pair `i < j`, flag `(i, j)` when the distance (`dst`, standing for
the Euclidean `dist`) between the two front positions is strictly below
`(length_i + length_j) / 2`.  The drawing of the marker is dropped; the
returned list is the set of flagged pairs (each printed/marked once). -/
def detect_collisions (dst : (α × α) → (α × α) → α)
    (trains : List (Train α)) : List (ℕ × ℕ) :=
  (List.range trains.length).flatMap fun i =>
    (((List.range trains.length).filter fun j => decide (i < j)).filter
      fun j =>
        decide (dst (trains.getD i default).frontPos
            (trains.getD j default).frontPos <
          ((trains.getD i default).length + (trains.getD j default).length)
            / 2)).map fun j => (i, j)

/-! ### Basic facts about `fmod` (floor-style modulo) -/

theorem fmod_eq_mul_fract (x : α) {y : α} (hy : y ≠ 0) :
    fmod x y = y * Int.fract (x / y) := by
  unfold fmod Int.fract
  rw [mul_sub, mul_div_cancel₀ _ hy]

theorem fmod_nonneg (x : α) {y : α} (hy : 0 < y) : 0 ≤ fmod x y := by
  rw [fmod_eq_mul_fract x hy.ne']
  exact mul_nonneg hy.le (Int.fract_nonneg _)

theorem fmod_lt (x : α) {y : α} (hy : 0 < y) : fmod x y < y := by
  rw [fmod_eq_mul_fract x hy.ne']
  calc y * Int.fract (x / y) < y * 1 :=
        (mul_lt_mul_left hy).mpr (Int.fract_lt_one _)
    _ = y := mul_one y

theorem fmod_add_int_mul (x : α) {y : α} (hy : y ≠ 0) (k : ℤ) :
    fmod (x + k * y) y = fmod x y := by
  unfold fmod
  have h : (x + k * y) / y = x / y + k := by
    rw [add_div, mul_div_assoc, div_self hy, mul_one]
  rw [h, Int.floor_add_int]
  push_cast
  ring

theorem fmod_eq_self {x y : α} (h0 : 0 ≤ x) (h1 : x < y) : fmod x y = x := by
  have hy : 0 < y := lt_of_le_of_lt h0 h1
  have hfloor : ⌊x / y⌋ = 0 := by
    rw [Int.floor_eq_zero_iff]
    exact ⟨div_nonneg h0 hy.le, (div_lt_one hy).mpr h1⟩
  unfold fmod
  rw [hfloor]
  push_cast
  ring

theorem fmod_fmod (x : α) {y : α} (hy : 0 < y) :
    fmod (fmod x y) y = fmod x y :=
  fmod_eq_self (fmod_nonneg x hy) (fmod_lt x hy)

theorem fmod_zero_left {y : α} : fmod 0 y = (0 : α) := by
  unfold fmod
  simp

theorem fmod_self {y : α} (hy : y ≠ 0) : fmod y y = (0 : α) := by
  have h := fmod_add_int_mul (0 : α) hy 1
  simpa [fmod_zero_left] using h

theorem fmod_add_right (x z : α) {y : α} (hy : y ≠ 0) :
    fmod (fmod x y + z) y = fmod (x + z) y := by
  have h : fmod x y + z = (x + z) + ((-⌊x / y⌋ : ℤ) : α) * y := by
    unfold fmod
    push_cast
    ring
  rw [h, fmod_add_int_mul _ hy]

/-! ### Facts about `step` and `get_pos_at` -/

theorem step_eq (t : Train α) (dt : α) :
    t.step dt =
      { t with abs_dist :=
          if 0 < t.total_len then
            fmod (t.abs_dist + t.max_speed * dt) t.total_len
          else t.abs_dist + t.max_speed * dt } := by
  unfold Train.step
  split
  · rfl
  · rfl

theorem get_pos_at_congr (t : Train α) {d1 d2 : α} (h : t.total_len ≠ 0)
    (he : fmod d1 t.total_len = fmod d2 t.total_len) :
    t.get_pos_at d1 = t.get_pos_at d2 := by
  unfold Train.get_pos_at
  rw [if_neg h, if_neg h, he]

/-- A concrete train used by the witnesses: one horizontal segment from
`(0,0)` to `(100,0)` of Euclidean length `100`, matching the concrete
scenario of the spec (`route [A, B]`, `length = 40`, `max_speed = 2`). -/
def demoTrain : Train ℚ :=
  { id := "T1", route := ["A", "B"], max_speed := 2, length := 40,
    edge_points := [((0, 0), (100, 0))], edge_lengths := [100],
    total_len := 100, abs_dist := 0 }

/-- Everything `Train.__init__` guarantees about a successfully built
train, read off from a `build … = .ok t` equation. -/
theorem build_ok {dst : (α × α) → (α × α) → α} {ns : Nodes α} {c : Cfg α}
    {t : Train α} (h : build dst ns c = .ok t) :
    c.effRoute ≠ [] ∧ checkNodes ns c.id c.effRoute = none ∧
    t.id = c.id ∧ t.route = c.effRoute ∧
    t.max_speed = c.max_speed ∧ t.length = c.length ∧
    t.edge_points = mkSegs ns c.effRoute ∧
    t.edge_lengths = (mkSegs ns c.effRoute).map (fun s => dst s.1 s.2) ∧
    t.total_len = ((mkSegs ns c.effRoute).map (fun s => dst s.1 s.2)).sum ∧
    t.abs_dist = c.start_dist := by
  unfold build at h
  rcases he : c.effRoute with _ | ⟨x, xs⟩
  · rw [he] at h
    exact absurd h (by simp)
  · rw [he] at h
    simp only at h
    rcases hc : checkNodes ns c.id (x :: xs) with _ | e
    · rw [hc] at h
      simp only [Except.ok.injEq] at h
      subst h
      simp [he, hc]
    · rw [hc] at h
      exact absurd h (by simp)

/-- A built train whose stored route is a single node has no segments and
total length zero. -/
theorem single_node_fields {dst : (α × α) → (α × α) → α} {ns : Nodes α}
    {c : Cfg α} {t : Train α} {n : String} (h : build dst ns c = .ok t)
    (hr : t.route = [n]) :
    t.edge_points = [] ∧ t.edge_lengths = [] ∧ t.total_len = 0 := by
  obtain ⟨-, -, -, hroute, -, -, heps, hels, hlen, -⟩ := build_ok h
  rw [hroute] at hr
  rw [hr] at heps hels hlen
  simp [mkSegs] at heps hels hlen
  exact ⟨heps, hels, hlen⟩

/-- On a zero-length path with no segments, `get_pos_at` always returns
the literal fallback `(0, 0)`. -/
theorem get_pos_at_no_segs {t : Train α} (hL : t.total_len = 0)
    (hp : t.edge_points = []) (d : α) : t.get_pos_at d = (0, 0) := by
  unfold Train.get_pos_at
  rw [if_pos hL, hp]

/-! ### Claims -/

/-- C2: for every entity with total path length > 0, every `d` (negative
included) and every integer `k`, `position_at(d) = position_at(d +
k * total_length)`; equivalently `position_at(d) = position_at(d mod
total_length)` with a floor-style modulo whose value lies in
`[0, total_length)`. -/
theorem get_pos_at_periodic (t : Train α) (h : 0 < t.total_len)
    (d : α) (k : ℤ) :
    t.get_pos_at (d + (k : α) * t.total_len) = t.get_pos_at d ∧
    t.get_pos_at d = t.get_pos_at (fmod d t.total_len) ∧
    0 ≤ fmod d t.total_len ∧ fmod d t.total_len < t.total_len := by
  have hne : t.total_len ≠ 0 := h.ne'
  exact ⟨get_pos_at_congr t hne (fmod_add_int_mul d hne k),
    get_pos_at_congr t hne (fmod_fmod d h).symm,
    fmod_nonneg d h, fmod_lt d h⟩

/-- Witness for C2: the demo train at `d = -30`, `k = 2`; the wrapped
distance is `70` and the three positions agree at `(70, 0)`. -/
theorem get_pos_at_periodic_witness :
    ((0 : ℚ) < demoTrain.total_len ∧
      (demoTrain.get_pos_at (-30 + ((2 : ℤ) : ℚ) * demoTrain.total_len) =
          demoTrain.get_pos_at (-30) ∧
        demoTrain.get_pos_at (-30) =
          demoTrain.get_pos_at (fmod (-30) demoTrain.total_len) ∧
        0 ≤ fmod (-30 : ℚ) demoTrain.total_len ∧
        fmod (-30 : ℚ) demoTrain.total_len < demoTrain.total_len)) ∧
    demoTrain.get_pos_at (-30) = (70, 0) := by
  refine ⟨⟨by norm_num [demoTrain],
    get_pos_at_periodic demoTrain (by norm_num [demoTrain]) (-30) 2⟩, ?_⟩
  norm_num [demoTrain, Train.get_pos_at, segWalk, lerp, fmod]

/-- C3: for every entity with total path length > 0 and positive `dt`,
`step` sets `abs_dist` to the old value plus `max_speed * dt`, wrapped by
floor-modulo into `[0, total_length)`. -/
theorem step_wraps (t : Train α) (dt : α) (h : 0 < t.total_len)
    (hdt : 0 < dt) :
    (t.step dt).abs_dist = fmod (t.abs_dist + t.max_speed * dt) t.total_len ∧
    0 ≤ (t.step dt).abs_dist ∧ (t.step dt).abs_dist < t.total_len := by
  rw [step_eq, if_pos h]
  exact ⟨rfl, fmod_nonneg _ h, fmod_lt _ h⟩

/-- Witness for C3: the demo train after one tick of `dt = 1` sits at
wrapped distance `2`. -/
theorem step_wraps_witness :
    ((0 : ℚ) < demoTrain.total_len ∧ (0 : ℚ) < 1 ∧
      ((demoTrain.step 1).abs_dist =
          fmod (demoTrain.abs_dist + demoTrain.max_speed * 1)
            demoTrain.total_len ∧
        0 ≤ (demoTrain.step 1).abs_dist ∧
        (demoTrain.step 1).abs_dist < demoTrain.total_len)) ∧
    (demoTrain.step 1).abs_dist = 2 := by
  refine ⟨⟨by norm_num [demoTrain], by norm_num,
    step_wraps demoTrain 1 (by norm_num [demoTrain]) (by norm_num)⟩, ?_⟩
  norm_num [demoTrain, Train.step, fmod]

/-- C9: advancing by `dt1` then `dt2` is one advance by `dt1 + dt2` — the
whole entity states agree, wrapped distance included. -/
theorem step_step (t : Train α) (dt1 dt2 : α) (h1 : 0 < dt1)
    (h2 : 0 < dt2) :
    (t.step dt1).step dt2 = t.step (dt1 + dt2) := by
  rw [step_eq t dt1, step_eq, step_eq t (dt1 + dt2)]
  by_cases h : 0 < t.total_len
  · simp only [if_pos h]
    congr 1
    rw [fmod_add_right _ _ h.ne']
    congr 1
    ring
  · simp only [if_neg h]
    congr 1
    ring

/-- A computable stand-in for the Euclidean `dist` used by the concrete
witnesses (squared distance): like `math.hypot` it is nonnegative and
symmetric, which is all any theorem below assumes of the distance
function. -/
def sqDist (a b : ℚ × ℚ) : ℚ := (a.1 - b.1) ^ 2 + (a.2 - b.2) ^ 2

/-- A one-node graph whose node sits away from the origin. -/
def nodesA : Nodes ℚ := [("A", (5, 5))]

/-- A train configuration whose route is the single node `A`. -/
def cfgA : Cfg ℚ :=
  { id := "T0", route := some ["A"], path := none, max_speed := 2,
    length := 40, start_dist := 0 }

/-- The train that `build` produces from `cfgA` over `nodesA`: no
segments, total length zero. -/
def trainA : Train ℚ :=
  { id := "T0", route := ["A"], max_speed := 2, length := 40,
    edge_points := [], edge_lengths := [], total_len := 0, abs_dist := 0 }

theorem build_cfgA : build sqDist nodesA cfgA = .ok trainA := by
  rfl

/-- C1 as stated is false: the single node of `trainA` sits at `(5, 5)`,
yet `get_pos_at` returns the literal fallback `(0, 0)` there. -/
theorem single_node_pos_counterexample :
    build sqDist nodesA cfgA = .ok trainA ∧
    nodesA.pos "A" = some (5, 5) ∧
    trainA.route = ["A"] ∧
    trainA.get_pos_at 3 = (0, 0) ∧
    trainA.get_pos_at 3 ≠ ((5 : ℚ), (5 : ℚ)) := by
  refine ⟨build_cfgA, by norm_num [nodesA, Nodes.pos], rfl, ?_, ?_⟩
  · norm_num [trainA, Train.get_pos_at]
  · norm_num [trainA, Train.get_pos_at, Prod.ext_iff]

/-- C1 amended: a built entity whose route has exactly one node has total
path length 0, and `get_pos_at` returns the constant fallback `(0, 0)` for
every `d` — the node's own position only when that node is the origin. -/
theorem get_pos_at_single_node {dst : (α × α) → (α × α) → α}
    {ns : Nodes α} {c : Cfg α} {t : Train α} {n : String}
    (h : build dst ns c = .ok t) (hr : t.route = [n]) (d : α) :
    t.total_len = 0 ∧ t.get_pos_at d = (0, 0) := by
  obtain ⟨hp, -, hL⟩ := single_node_fields h hr
  exact ⟨hL, get_pos_at_no_segs hL hp d⟩

/-- Witness for C1 (amended form) at the concrete one-node train. -/
theorem get_pos_at_single_node_witness :
    (build sqDist nodesA cfgA = .ok trainA ∧ trainA.route = ["A"] ∧
      (trainA.total_len = 0 ∧ trainA.get_pos_at 37 = (0, 0))) ∧
    nodesA.pos "A" = some (5, 5) :=
  ⟨⟨build_cfgA, rfl, get_pos_at_single_node build_cfgA rfl 37⟩,
    by norm_num [nodesA, Nodes.pos]⟩

/-- C4 as stated is false: on the degenerate (zero-length) path, `step`
still adds `max_speed * dt` to `abs_dist` — only the wrap is skipped — so
`distance_traveled` changes from `0` to `2` here. -/
theorem step_degenerate_counterexample :
    build sqDist nodesA cfgA = .ok trainA ∧
    trainA.total_len = 0 ∧ trainA.abs_dist = 0 ∧
    (trainA.step 1).abs_dist = 2 ∧ (2 : ℚ) ≠ 0 := by
  refine ⟨build_cfgA, rfl, rfl, ?_, by norm_num⟩
  norm_num [trainA, Train.step]

/-- C4 amended: on a zero-length path, `step` adds `max_speed * dt` to
`abs_dist` without wrapping, and the entity does not move: its reported
position at any query distance is unchanged. -/
theorem step_degenerate (t : Train α) (dt : α) (h : t.total_len = 0)
    (hdt : 0 < dt) (d : α) :
    (t.step dt).abs_dist = t.abs_dist + t.max_speed * dt ∧
    (t.step dt).get_pos_at d = t.get_pos_at d := by
  have hn : ¬ 0 < t.total_len := by
    rw [h]
    exact lt_irrefl 0
  constructor
  · rw [step_eq, if_neg hn]
  · rw [step_eq]
    unfold Train.get_pos_at
    rfl

/-- Witness for C4 (amended form): the concrete degenerate train after
`dt = 1` carries distance `2` but still reports position `(0, 0)`. -/
theorem step_degenerate_witness :
    (trainA.total_len = 0 ∧ (0 : ℚ) < 1 ∧
      ((trainA.step 1).abs_dist = trainA.abs_dist + trainA.max_speed * 1 ∧
        (trainA.step 1).get_pos_at 5 = trainA.get_pos_at 5)) ∧
    trainA.get_pos_at 5 = (0, 0) := by
  refine ⟨⟨rfl, by norm_num, step_degenerate trainA 1 rfl (by norm_num) 5⟩, ?_⟩
  norm_num [trainA, Train.get_pos_at]

/-- C10: rendering a built single-node entity divides by zero: the first
line of `Train.draw` evaluates `abs_dist % total_len` with `total_len = 0`
and no guard (Python raises `ZeroDivisionError`, modelled by `pymod` as
`none`), even though `get_pos_at` itself is guarded and returns a value. -/
theorem draw_front_single_node {dst : (α × α) → (α × α) → α}
    {ns : Nodes α} {c : Cfg α} {t : Train α} {n : String}
    (h : build dst ns c = .ok t) (hr : t.route = [n]) :
    t.total_len = 0 ∧ t.draw_front = none ∧
    t.get_pos_at t.abs_dist = (0, 0) := by
  obtain ⟨hp, -, hL⟩ := single_node_fields h hr
  refine ⟨hL, ?_, get_pos_at_no_segs hL hp _⟩
  unfold Train.draw_front pymod
  rw [if_pos hL]

/-- Witness for C10 at the concrete one-node train. -/
theorem draw_front_single_node_witness :
    build sqDist nodesA cfgA = .ok trainA ∧ trainA.route = ["A"] ∧
    (trainA.total_len = 0 ∧ trainA.draw_front = none ∧
      trainA.get_pos_at trainA.abs_dist = (0, 0)) :=
  ⟨build_cfgA, rfl, draw_front_single_node build_cfgA rfl⟩

theorem lerp_zero (a b : α × α) : lerp a b 0 = a := by
  simp [lerp]

theorem segWalk_cons_zero (fb a b : α × α) (ps : List ((α × α) × (α × α)))
    (l : α) (ls : List α) (hl : 0 ≤ l) :
    segWalk fb ((a, b) :: ps) (l :: ls) 0 = a := by
  unfold segWalk
  rw [if_pos (Or.inl hl)]
  have h : (if 0 < l then 0 / l else (0 : α)) = 0 := by
    split
    · exact zero_div l
    · rfl
  rw [h, lerp_zero]

theorem checkNodes_none_forall {ns : Nodes α} {tid : String} :
    ∀ {l : List String}, checkNodes ns tid l = none →
      ∀ n ∈ l, (ns.pos n).isSome = true := by
  intro l
  induction l with
  | nil => simp
  | cons a l ih =>
      intro h n hn
      unfold checkNodes at h
      by_cases ha : (ns.pos a).isSome
      · rw [if_pos ha] at h
        rcases List.mem_cons.mp hn with rfl | hmem
        · exact ha
        · exact ih h n hmem
      · rw [if_neg ha] at h
        exact absurd h (by simp)

theorem checkNodes_some {ns : Nodes α} {tid : String} :
    ∀ {l : List String} {e : BuildError}, checkNodes ns tid l = some e →
      ∃ n, e = .unknownNode tid n ∧ n ∈ l ∧ ns.pos n = none := by
  intro l
  induction l with
  | nil => simp [checkNodes]
  | cons a l ih =>
      intro e h
      unfold checkNodes at h
      by_cases ha : (ns.pos a).isSome
      · rw [if_pos ha] at h
        obtain ⟨n, he, hn, hp⟩ := ih h
        exact ⟨n, he, List.mem_cons_of_mem a hn, hp⟩
      · rw [if_neg ha] at h
        refine ⟨a, (Option.some_injective _ h).symm, List.mem_cons_self a l, ?_⟩
        exact Option.not_isSome_iff_eq_none.mp ha

/-- A two-node graph: `A` at the origin, `B` at `(3, 4)`. -/
def nodesAB : Nodes ℚ := [("A", (0, 0)), ("B", (3, 4))]

/-- A train configuration routed `A` then `B`. -/
def cfgAB : Cfg ℚ :=
  { id := "T1", route := some ["A", "B"], path := none, max_speed := 2,
    length := 40, start_dist := 0 }

/-- The train `build` produces from `cfgAB` over `nodesAB` with `sqDist`
as the length function: one segment of (squared) length 25. -/
def trainAB : Train ℚ :=
  { id := "T1", route := ["A", "B"], max_speed := 2, length := 40,
    edge_points := [((0, 0), (3, 4))], edge_lengths := [25],
    total_len := 25, abs_dist := 0 }

theorem sqDist_nonneg (a b : ℚ × ℚ) : 0 ≤ sqDist a b :=
  add_nonneg (sq_nonneg _) (sq_nonneg _)

theorem build_cfgAB : build sqDist nodesAB cfgAB = .ok trainAB := by
  have hB : ("B" == "A") = false := by decide
  simp only [build, cfgAB, nodesAB, trainAB, Cfg.effRoute, checkNodes,
    Nodes.pos, List.lookup, mkSegs, sqDist, hB, beq_self_eq_true]
  norm_num [Train.mk.injEq]

/-- C8: for a built entity with total path length > 0 (assuming, as for
the Euclidean `dist`, that segment lengths are nonnegative),
`position_at(0) = position_at(total_length)` and both equal the world
position of the first route node. -/
theorem get_pos_at_boundary {dst : (α × α) → (α × α) → α} {ns : Nodes α}
    {c : Cfg α} {t : Train α} (h : build dst ns c = .ok t)
    (hpos : 0 < t.total_len) (hd : ∀ a b, 0 ≤ dst a b) :
    ∃ n rest p, t.route = n :: rest ∧ ns.pos n = some p ∧
      t.get_pos_at 0 = p ∧ t.get_pos_at t.total_len = p := by
  obtain ⟨-, hchk, -, hroute, -, -, heps, hels, hlen, -⟩ := build_ok h
  have hne : t.total_len ≠ 0 := hpos.ne'
  rcases hr : c.effRoute with _ | ⟨u, rest0⟩
  · rw [hr] at hlen
    simp [mkSegs] at hlen
    exact absurd hlen hne
  rcases rest0 with _ | ⟨v, rest⟩
  · rw [hr] at hlen
    simp [mkSegs] at hlen
    exact absurd hlen hne
  rw [hr] at hchk heps hels hroute
  have hu : (ns.pos u).isSome = true :=
    checkNodes_none_forall hchk u (List.mem_cons_self u _)
  obtain ⟨p, hp⟩ := Option.isSome_iff_exists.mp hu
  have hgd : (ns.pos u).getD (0, 0) = p := by
    rw [hp]
    rfl
  have hfirst : ∀ g : α, fmod g t.total_len = 0 → t.get_pos_at g = p := by
    intro g hg
    unfold Train.get_pos_at
    rw [if_neg hne, hg, heps, hels]
    simp only [mkSegs, List.map_cons]
    rw [segWalk_cons_zero _ _ _ _ _ _ (hd _ _), hgd]
  exact ⟨u, v :: rest, p, hroute, hp,
    hfirst 0 fmod_zero_left, hfirst t.total_len (fmod_self hne)⟩

/-- Witness for C8: the two-node train; both boundary positions evaluate
to node `A`'s world position `(0, 0)`. -/
theorem get_pos_at_boundary_witness :
    (build sqDist nodesAB cfgAB = .ok trainAB ∧
      (0 : ℚ) < trainAB.total_len ∧
      (∃ n rest p, trainAB.route = n :: rest ∧ nodesAB.pos n = some p ∧
        trainAB.get_pos_at 0 = p ∧
        trainAB.get_pos_at trainAB.total_len = p)) ∧
    trainAB.get_pos_at 0 = (0, 0) := by
  refine ⟨⟨build_cfgAB, by norm_num [trainAB],
    get_pos_at_boundary build_cfgAB (by norm_num [trainAB])
      sqDist_nonneg⟩, ?_⟩
  norm_num [trainAB, Train.get_pos_at, segWalk, lerp, fmod]

theorem checkNodes_none_of_forall {ns : Nodes α} {tid : String} :
    ∀ {l : List String}, (∀ n ∈ l, (ns.pos n).isSome = true) →
      checkNodes ns tid l = none := by
  intro l
  induction l with
  | nil => simp [checkNodes]
  | cons a l ih =>
      intro h
      unfold checkNodes
      rw [if_pos (h a (List.mem_cons_self a l))]
      exact ih fun n hn => h n (List.mem_cons_of_mem a hn)

/-- C7: construction fails exactly on an empty or absent route or a route
node missing from the graph, and each error names the entity identifier
(and the offending node, where applicable); when the resolved route is
nonempty and every node exists, construction succeeds. -/
theorem build_eq_missing (dst : (α × α) → (α × α) → α) (ns : Nodes α)
    {c : Cfg α} (hr : c.effRoute = []) :
    build dst ns c = .error (.missingRoute c.id) := by
  unfold build
  rw [hr]

theorem build_eq_unknown (dst : (α × α) → (α × α) → α) {ns : Nodes α}
    {c : Cfg α} {x : String} {xs : List String} {e0 : BuildError}
    (hr : c.effRoute = x :: xs)
    (hc : checkNodes ns c.id (x :: xs) = some e0) :
    build dst ns c = .error e0 := by
  unfold build
  rw [hr]
  simp only [hc]

theorem build_eq_ok (dst : (α × α) → (α × α) → α) {ns : Nodes α}
    {c : Cfg α} {x : String} {xs : List String}
    (hr : c.effRoute = x :: xs)
    (hc : checkNodes ns c.id (x :: xs) = none) :
    build dst ns c =
      .ok { id := c.id, route := x :: xs, max_speed := c.max_speed,
            length := c.length, edge_points := mkSegs ns (x :: xs),
            edge_lengths := (mkSegs ns (x :: xs)).map (fun s => dst s.1 s.2),
            total_len :=
              ((mkSegs ns (x :: xs)).map (fun s => dst s.1 s.2)).sum,
            abs_dist := c.start_dist } := by
  unfold build
  rw [hr]
  simp only [hc]

theorem build_errors (dst : (α × α) → (α × α) → α) (ns : Nodes α)
    (c : Cfg α) :
    ((∃ t, build dst ns c = .ok t) ↔
      (c.effRoute ≠ [] ∧ ∀ n ∈ c.effRoute, (ns.pos n).isSome = true)) ∧
    (build dst ns c = .error (.missingRoute c.id) ↔ c.effRoute = []) ∧
    (∀ e, build dst ns c = .error e →
      (e = .missingRoute c.id ∧ c.effRoute = []) ∨
      (∃ n, e = .unknownNode c.id n ∧ n ∈ c.effRoute ∧ ns.pos n = none)) := by
  rcases hr : c.effRoute with _ | ⟨x, xs⟩
  · have hb := build_eq_missing dst ns hr
    refine ⟨?_, ?_, ?_⟩
    · simp [hb]
    · simp [hb]
    · intro e he
      rw [hb] at he
      simp only [Except.error.injEq] at he
      exact Or.inl ⟨he.symm, rfl⟩
  · rcases hc : checkNodes ns c.id (x :: xs) with _ | e0
    · have hb := build_eq_ok dst hr hc
      refine ⟨?_, ?_, ?_⟩
      · exact iff_of_true ⟨_, hb⟩
          ⟨List.cons_ne_nil x xs, checkNodes_none_forall hc⟩
      · rw [hb]
        simp
      · intro e he
        rw [hb] at he
        exact absurd he (by simp)
    · obtain ⟨n, hen, hnmem, hnpos⟩ := checkNodes_some hc
      have hb := build_eq_unknown dst hr hc
      refine ⟨?_, ?_, ?_⟩
      · constructor
        · rintro ⟨t, ht⟩
          rw [hb] at ht
          exact absurd ht (by simp)
        · rintro ⟨-, hall⟩
          have hsome := hall n hnmem
          rw [hnpos] at hsome
          exact absurd hsome (by simp)
      · rw [hb]
        constructor
        · intro he
          simp only [Except.error.injEq] at he
          rw [hen] at he
          exact absurd he (by simp)
        · intro he
          exact absurd he (List.cons_ne_nil x xs)
      · intro e he
        rw [hb] at he
        simp only [Except.error.injEq] at he
        exact Or.inr ⟨n, he ▸ hen, hnmem, hnpos⟩

/-- A configuration whose route references a node `C` absent from
`nodesAB`. -/
def cfgBad : Cfg ℚ :=
  { id := "TX", route := some ["A", "C"], path := none, max_speed := 2,
    length := 40, start_dist := 0 }

/-- Witness for C7: the error characterization instantiated at `cfgBad`,
whose build concretely fails naming train `TX` and unknown node `C`,
while `cfgAB` builds successfully. -/
theorem build_errors_witness :
    (((∃ t, build sqDist nodesAB cfgBad = .ok t) ↔
        (cfgBad.effRoute ≠ [] ∧
          ∀ n ∈ cfgBad.effRoute, (nodesAB.pos n).isSome = true)) ∧
      (build sqDist nodesAB cfgBad = .error (.missingRoute cfgBad.id) ↔
        cfgBad.effRoute = []) ∧
      (∀ e, build sqDist nodesAB cfgBad = .error e →
        (e = .missingRoute cfgBad.id ∧ cfgBad.effRoute = []) ∨
        (∃ n, e = .unknownNode cfgBad.id n ∧ n ∈ cfgBad.effRoute ∧
          nodesAB.pos n = none))) ∧
    build sqDist nodesAB cfgBad = .error (.unknownNode "TX" "C") ∧
    (∃ t, build sqDist nodesAB cfgAB = .ok t) := by
  refine ⟨build_errors sqDist nodesAB cfgBad, ?_, ⟨trainAB, build_cfgAB⟩⟩
  exact build_eq_unknown sqDist rfl (by decide)

/-- C6: the body sampler computes `span = front - back` (plus
`total_len` when negative), picks `samples = max(2, ceil(span /
(step_px / zoom)))` with the source's fixed `step_px = 4`, and returns
exactly `samples + 1` points, the `i`-th being `get_pos_at` at the evenly
spaced offset `back + (i / samples) * span`.  (As a Lean function it is
deterministic and side-effect free by construction.) -/
theorem polyline_between_spec (t : Train α) (back front zoom : α)
    (hz : 0 < zoom) :
    ∃ span : α, ∃ N : ℕ,
      span = (if front - back < 0 then front - back + t.total_len
              else front - back) ∧
      N = max 2 ⌈span / ((4 : α) / zoom)⌉.toNat ∧
      (t.polyline_between back front zoom 4).length = N + 1 ∧
      ∀ i, i ≤ N → (t.polyline_between back front zoom 4)[i]? =
        some (t.get_pos_at (back + ((i : α) / (N : α)) * span)) := by
  refine ⟨_, _, rfl, rfl, ?_, ?_⟩
  · unfold Train.polyline_between
    simp only [List.length_map, List.length_range]
  · intro i hi
    unfold Train.polyline_between
    simp only [List.getElem?_map, List.getElem?_range,
      Nat.lt_succ_of_le hi, if_true]
    rfl

/-- Witness for C6: the demo train sampled from arc length 20 to 60 at
zoom 1: span 40, 10 samples, 11 points; the middle point is `(40, 0)`. -/
theorem polyline_between_spec_witness :
    ((0 : ℚ) < 1 ∧
      (∃ span : ℚ, ∃ N : ℕ,
        span = (if (60 : ℚ) - 20 < 0 then 60 - 20 + demoTrain.total_len
                else 60 - 20) ∧
        N = max 2 ⌈span / ((4 : ℚ) / 1)⌉.toNat ∧
        (demoTrain.polyline_between 20 60 1 4).length = N + 1 ∧
        ∀ i, i ≤ N → (demoTrain.polyline_between 20 60 1 4)[i]? =
          some (demoTrain.get_pos_at (20 + ((i : ℚ) / (N : ℚ)) * span)))) ∧
    (demoTrain.polyline_between 20 60 1 4).length = 11 ∧
    (demoTrain.polyline_between 20 60 1 4)[5]? = some ((40 : ℚ), 0) := by
  obtain ⟨span, N, hspan, hN, hlen, hget⟩ :=
    polyline_between_spec demoTrain 20 60 1 (by norm_num)
  have hspan40 : span = 40 := by
    rw [hspan]
    norm_num
  have hN10 : N = 10 := by
    rw [hN, hspan40]
    norm_num
    decide
  refine ⟨⟨by norm_num, ⟨span, N, hspan, hN, hlen, hget⟩⟩, ?_, ?_⟩
  · rw [hlen, hN10]
  · have h5 := hget 5 (by rw [hN10]; norm_num)
    rw [h5, hspan40, hN10]
    norm_num [demoTrain, Train.get_pos_at, segWalk, lerp, fmod]

/-- Index-pair membership in the collision pass, read off the two loops:
`(i, j)` is reported iff `i < j`, `j` is in range, and the two front
positions are closer than the combined half-length. -/
theorem mem_detect_iff {dst : (α × α) → (α × α) → α}
    {trains : List (Train α)} {i j : ℕ} :
    (i, j) ∈ detect_collisions dst trains ↔
      (i < j ∧ j < trains.length ∧
        dst (trains.getD i default).frontPos
            (trains.getD j default).frontPos <
          ((trains.getD i default).length +
            (trains.getD j default).length) / 2) := by
  unfold detect_collisions
  simp only [List.mem_flatMap, List.mem_map, List.mem_filter,
    List.mem_range, decide_eq_true_eq, Prod.mk.injEq]
  constructor
  · rintro ⟨a, ha, b, ⟨⟨hb, hab⟩, hcond⟩, rfl, rfl⟩
    exact ⟨hab, hb, hcond⟩
  · rintro ⟨hij, hj, hcond⟩
    exact ⟨i, lt_trans hij hj, j, ⟨⟨hj, hij⟩, hcond⟩, rfl, rfl⟩

/-- C5: for any entity list and in-range indices, the collision pass flags
the unordered pair `(i, j)` iff `i ≠ j` and the Euclidean distance between
the two front positions (`get_pos_at(abs_dist)`) is strictly below
`(length_i + length_j) / 2`; the flagged set is symmetric and never
contains `(i, i)`.  The distance function is abstract here; the only
property used is the symmetry `dst a b = dst b a`, which `math.hypot`
has. -/
theorem detect_collisions_spec {dst : (α × α) → (α × α) → α}
    (hsym : ∀ a b, dst a b = dst b a) (trains : List (Train α)) (i j : ℕ)
    (hi : i < trains.length) (hj : j < trains.length) :
    (((i, j) ∈ detect_collisions dst trains ∨
        (j, i) ∈ detect_collisions dst trains) ↔
      (i ≠ j ∧
        dst (trains.getD i default).frontPos
            (trains.getD j default).frontPos <
          ((trains.getD i default).length +
            (trains.getD j default).length) / 2)) ∧
    (i, i) ∉ detect_collisions dst trains := by
  constructor
  · rw [mem_detect_iff, mem_detect_iff]
    constructor
    · rintro (⟨hij, -, hc⟩ | ⟨hji, -, hc⟩)
      · exact ⟨hij.ne, hc⟩
      · refine ⟨hji.ne', ?_⟩
        rw [hsym, add_comm]
        exact hc
    · rintro ⟨hne, hc⟩
      rcases lt_or_gt_of_ne hne with h | h
      · exact Or.inl ⟨h, hj, hc⟩
      · refine Or.inr ⟨h, hi, ?_⟩
        rw [hsym, add_comm]
        exact hc
  · rw [mem_detect_iff]
    rintro ⟨hii, -⟩
    exact lt_irrefl i hii

/-- A second train on the demo track, 5 world units ahead. -/
def demoTrain2 : Train ℚ :=
  { demoTrain with id := "T2", abs_dist := 5 }

/-- The two-train roster for the collision witness. -/
def trains2 : List (Train ℚ) := [demoTrain, demoTrain2]

/-- Witness for C5: fronts `(0,0)` and `(5,0)` with stand-in distance 25,
below the threshold `(40 + 40) / 2 = 40`, so the pair `(0, 1)` is
flagged and `(0, 0)` is not. -/
theorem detect_collisions_spec_witness :
    ((∀ a b : ℚ × ℚ, sqDist a b = sqDist b a) ∧
      0 < trains2.length ∧ 1 < trains2.length ∧
      ((((0, 1) ∈ detect_collisions sqDist trains2 ∨
          (1, 0) ∈ detect_collisions sqDist trains2) ↔
        (0 ≠ 1 ∧
          sqDist (trains2.getD 0 default).frontPos
              (trains2.getD 1 default).frontPos <
            ((trains2.getD 0 default).length +
              (trains2.getD 1 default).length) / 2)) ∧
       (0, 0) ∉ detect_collisions sqDist trains2)) ∧
    (0, 1) ∈ detect_collisions sqDist trains2 := by
  have hsym : ∀ a b : ℚ × ℚ, sqDist a b = sqDist b a := fun a b => by
    unfold sqDist
    ring
  have happ := detect_collisions_spec hsym trains2 0 1
    (by norm_num [trains2]) (by norm_num [trains2])
  refine ⟨⟨hsym, by norm_num [trains2], by norm_num [trains2], happ⟩,
    mem_detect_iff.mpr ⟨by norm_num, by norm_num [trains2], ?_⟩⟩
  norm_num [trains2, demoTrain, demoTrain2, Train.frontPos,
    Train.get_pos_at, segWalk, lerp, fmod, sqDist]

/-- Witness for C9: two ticks of the demo train, `dt = 1` then `dt = 2`,
agree with one tick of `dt = 3` (wrapped distance `6`). -/
theorem step_step_witness :
    ((0 : ℚ) < 1 ∧ (0 : ℚ) < 2 ∧
      (demoTrain.step 1).step 2 = demoTrain.step (1 + 2)) ∧
    (demoTrain.step (1 + 2)).abs_dist = 6 := by
  refine ⟨⟨by norm_num, by norm_num,
    step_step demoTrain 1 2 (by norm_num) (by norm_num)⟩, ?_⟩
  norm_num [demoTrain, Train.step, fmod]

end TrainSim
